import Mathlib

/-!
Verification development for the dispersion-solution core of an
echelle-spectrograph reduction pipeline (`create_dispersion_map.py` and
`dispersion_map_to_pixel_arrays.py`).

Modelling conventions:
* Detector quantities (floats in the source) are embedded as rationals `ℚ`;
  `NaN` cells of an image are embedded as `none : Option ℚ`.
* The forward dispersion polynomials (module `polynomials.py`, outside the
  sources at hand) are kept abstract: every definition that evaluates the
  map takes the two evaluation functions `px py : α → ℚ` as parameters.
* The source compares `sqrt (rx^2 + ry^2) < t`; over the rationals we carry
  the squared quantity and use the exact equivalence
  `sqrt s < t ↔ 0 < t ∧ s < t^2` (for `0 ≤ s`), proved in `sqrtQ_lt_iff`.
-/

namespace SoxsDisp

/-- A row of a line list / grid table: the spectral coordinates the forward
dispersion map consumes (columns `order`, `wavelength`, `slit_position`). -/
structure GridRow where
  order : ℚ
  wavelength : ℚ
  slit_position : ℚ
deriving DecidableEq, Repr

/-- A grid row with the fitted detector coordinates appended
(columns `fit_x`, `fit_y` added by `dispersion_map_to_pixel_arrays`). -/
structure FitRow (α : Type) where
  row : α
  fit_x : ℚ
  fit_y : ℚ
deriving DecidableEq, Repr

/-- `dispersion_map_to_pixel_arrays` (dispersion_map_to_pixel_arrays.py,
lines 76-86): evaluate the x- and y-polynomials of the dispersion map on
every row of the line list, append the results as `fit_x`/`fit_y`, then keep
only the rows with `fit_x > 0` and `fit_y > 0`.  The polynomial evaluators
`px`, `py` are passed in (they are read from the map file in the source). -/
def dispersion_map_to_pixel_arrays {α : Type} (px py : α → ℚ)
    (lineList : List α) : List (FitRow α) :=
  (lineList.map (fun r => FitRow.mk r (px r) (py r))).filter
    (fun fr => decide (0 < fr.fit_x) && decide (0 < fr.fit_y))

/-- C10: every row returned by `dispersion_map_to_pixel_arrays` has
`fit_x > 0` and `fit_y > 0`; a row of the input survives exactly when both
fitted coordinates are positive (non-positive rows are silently removed,
no error is reported), and a surviving row's pre-existing columns are the
unchanged input row, with `fit_x`/`fit_y` the polynomial values at it. -/
theorem pixel_arrays_positive {α : Type} (px py : α → ℚ) (lineList : List α) :
    (∀ fr ∈ dispersion_map_to_pixel_arrays px py lineList,
      0 < fr.fit_x ∧ 0 < fr.fit_y ∧ fr.row ∈ lineList ∧
      fr.fit_x = px fr.row ∧ fr.fit_y = py fr.row) ∧
    (∀ r ∈ lineList,
      (FitRow.mk r (px r) (py r) ∈ dispersion_map_to_pixel_arrays px py lineList
        ↔ 0 < px r ∧ 0 < py r)) := by
  constructor
  · intro fr hfr
    have h := List.of_mem_filter hfr
    have hmem := List.mem_of_mem_filter hfr
    simp only [Bool.and_eq_true, decide_eq_true_eq] at h
    rcases List.mem_map.mp hmem with ⟨r, hr, hrEq⟩
    refine ⟨h.1, h.2, ?_, ?_, ?_⟩
    · rw [← hrEq]; exact hr
    · rw [← hrEq]
    · rw [← hrEq]
  · intro r hr
    constructor
    · intro hmem
      have h := List.of_mem_filter hmem
      simp only [Bool.and_eq_true, decide_eq_true_eq] at h
      exact h
    · intro hpos
      apply List.mem_filter.mpr
      refine ⟨List.mem_map.mpr ⟨r, hr, rfl⟩, ?_⟩
      simp only [Bool.and_eq_true, decide_eq_true_eq]
      exact hpos

/-- Witness for `pixel_arrays_positive` at a concrete input: a two-row line
list, one row with positive fits (kept) and one with a non-positive fit
(dropped); the theorem is applied to the surviving output row. -/
theorem pixel_arrays_positive_witness :
    0 < (FitRow.mk (GridRow.mk 1 3 0) 3 1).fit_x ∧
    0 < (FitRow.mk (GridRow.mk 1 3 0) 3 1).fit_y ∧
    (FitRow.mk (GridRow.mk 1 3 0) 3 1).row ∈
      [GridRow.mk 1 3 0, GridRow.mk 1 (-2) 0] ∧
    (FitRow.mk (GridRow.mk 1 3 0) 3 1).fit_x =
      (FitRow.mk (GridRow.mk 1 3 0) 3 1).row.wavelength ∧
    (FitRow.mk (GridRow.mk 1 3 0) 3 1).fit_y =
      (FitRow.mk (GridRow.mk 1 3 0) 3 1).row.order :=
  (pixel_arrays_positive (fun r : GridRow => r.wavelength)
      (fun r : GridRow => r.order)
      [GridRow.mk 1 3 0, GridRow.mk 1 (-2) 0]).1
    (FitRow.mk (GridRow.mk 1 3 0) 3 1) (by decide)

/-- A row of the predicted-line catalogue (columns of the FITS table read by
`get_predicted_line_list`). -/
structure CatRow where
  order : ℚ
  wavelength : ℚ
  slit_index : ℤ
  slit_position : ℚ
  detector_x : ℚ
  detector_y : ℚ
deriving DecidableEq, Repr

/-- `get_predicted_line_list`, single-pinhole branch (create_dispersion_map.py
lines 270-274, taken when no first-guess map is supplied): build the mask
`slit_index != mid_slit_index` and drop the masked rows from the catalogue
before the table is returned. -/
def single_pinhole_line_list (midSlitIndex : ℤ) (catalogue : List CatRow) :
    List CatRow :=
  catalogue.filter (fun r => !(decide (r.slit_index ≠ midSlitIndex)))

/-- A catalogue whose rows carry one of each `slit_index` value `0..11`. -/
def uniformCatalogue : List CatRow :=
  (List.range 12).map (fun (i : ℕ) => CatRow.mk 1 (100 + (i : ℚ)) (i : ℤ) 0 0 0)

/-- C5 counterexample: on a catalogue with one row per `slit_index` in
`{0..11}` and mid index 5, the loader keeps exactly 1 of the 12 rows
(those with `slit_index = 5`), not 11 of 12 as the claim's `11/12` states. -/
theorem single_pinhole_fraction_counterexample :
    uniformCatalogue.length = 12 ∧
    (single_pinhole_line_list 5 uniformCatalogue).length = 1 ∧
    ¬ ((single_pinhole_line_list 5 uniformCatalogue).length = 11) := by
  decide

/-- C5 amended: in single-pinhole mode the loader retains exactly the
catalogue rows whose `slit_index` equals the detector's mid slit index,
inside the loader itself (before any downstream step sees the table); for a
catalogue with one row per `slit_index` in `{0..11}` and mid index 5,
exactly 1/12 of the rows survive. -/
theorem single_pinhole_filter_amended (midSlitIndex : ℤ)
    (catalogue : List CatRow) :
    (∀ r : CatRow,
      r ∈ single_pinhole_line_list midSlitIndex catalogue ↔
        r ∈ catalogue ∧ r.slit_index = midSlitIndex) ∧
    (single_pinhole_line_list 5 uniformCatalogue).length * 12 =
      uniformCatalogue.length := by
  constructor
  · intro r
    constructor
    · intro h
      have hm := List.mem_of_mem_filter h
      have hp := List.of_mem_filter h
      simp only [Bool.not_eq_true', decide_eq_false_iff_not, not_not] at hp
      exact ⟨hm, hp⟩
    · intro h
      apply List.mem_filter.mpr
      refine ⟨h.1, ?_⟩
      simp only [Bool.not_eq_true', decide_eq_false_iff_not, not_not]
      exact h.2
  · decide

/-- An image of the detector: a value per integer pixel, `none` for NaN.
(`wlMap.data` / `slitMap.data` in the source; indexed here as `(x, y)`.) -/
def Image : Type := ℤ × ℤ → Option ℚ

/-- One committed write (convert_and_fit lines 1362-1370): the map entry at
pixel `(xx, yy)` is replaced by
`np.where(isnan(current), value, current)` - the new value lands only where
the current entry is NaN (`none`); other pixels are untouched. -/
def commitOne (m : Image) (x y : ℤ) (v : ℚ) : Image :=
  fun p =>
    if p = (x, y) then
      match m (x, y) with
      | none => some v
      | some w => some w
    else m p

/-- One row of `newPixelValue` as committed to the placeholder images:
the integer pixel and the wavelength / slit-position values written there. -/
structure CommitVal where
  pixel_x : ℤ
  pixel_y : ℤ
  wavelength : ℚ
  slit_position : ℚ
deriving DecidableEq, Repr

/-- The commit loop of `convert_and_fit` (lines 1361-1370): for each row of
`newPixelValue`, write its wavelength into the wavelength map and its
slit position into the slit map, each guarded by the NaN test. -/
def commitRows (rows : List CommitVal) (wlMap slitMap : Image) :
    Image × Image :=
  rows.foldl
    (fun ms r =>
      (commitOne ms.1 r.pixel_x r.pixel_y r.wavelength,
       commitOne ms.2 r.pixel_x r.pixel_y r.slit_position))
    (wlMap, slitMap)

lemma commitOne_preserves {m : Image} {x y : ℤ} {v : ℚ} {p : ℤ × ℤ} {w : ℚ}
    (h : m p = some w) : commitOne m x y v p = some w := by
  by_cases hp : p = (x, y)
  · subst hp
    simp [commitOne, h]
  · simp [commitOne, hp, h]

lemma commitRows_preserves {rows : List CommitVal} {wlMap slitMap : Image}
    {p : ℤ × ℤ} :
    (∀ w, wlMap p = some w → (commitRows rows wlMap slitMap).1 p = some w) ∧
    (∀ w, slitMap p = some w → (commitRows rows wlMap slitMap).2 p = some w) := by
  induction rows generalizing wlMap slitMap with
  | nil => exact ⟨fun w h => h, fun w h => h⟩
  | cons r rs ih =>
    constructor
    · intro w h
      exact (ih).1 w (commitOne_preserves h)
    · intro w h
      exact (ih).2 w (commitOne_preserves h)

/-- C4: an assigned raster pixel is terminal.  If the wavelength (resp.
slit) image already holds a value at pixel `p`, then after any further
sequence of commits it still holds exactly that value: the commit writes
only where the current entry is NaN. -/
theorem assigned_pixels_terminal (rows : List CommitVal)
    (wlMap slitMap : Image) (p : ℤ × ℤ) (w s : ℚ)
    (hw : wlMap p = some w) (hs : slitMap p = some s) :
    (commitRows rows wlMap slitMap).1 p = some w ∧
    (commitRows rows wlMap slitMap).2 p = some s :=
  ⟨commitRows_preserves.1 w hw, commitRows_preserves.2 s hs⟩

/-- Witness for `assigned_pixels_terminal`: a pixel assigned `(500, 3)` keeps
those values across a later commit aimed at the same pixel. -/
theorem assigned_pixels_terminal_witness :
    (commitRows [CommitVal.mk 0 0 777 9]
      (fun p => if p = (0, 0) then some 500 else none)
      (fun p => if p = (0, 0) then some 3 else none)).1 (0, 0) = some 500 ∧
    (commitRows [CommitVal.mk 0 0 777 9]
      (fun p => if p = (0, 0) then some 500 else none)
      (fun p => if p = (0, 0) then some 3 else none)).2 (0, 0) = some 3 :=
  assigned_pixels_terminal [CommitVal.mk 0 0 777 9]
    (fun p => if p = (0, 0) then some 500 else none)
    (fun p => if p = (0, 0) then some 3 else none)
    (0, 0) 500 3 (by simp) (by simp)

/-- A row of the rasteriser's grid table after `convert_and_fit` lines
1262-1269: fitted coordinates, the integer pixel (`floor` of the fit), the
per-axis displacements from the pixel centre, and their squared norm.
The source stores `residual_xy = sqrt residual_sq`; the square is carried
here and compared against the squared threshold (see `passThreshold`). -/
structure PixRow where
  row : GridRow
  fit_x : ℚ
  fit_y : ℚ
  pixel_x : ℤ
  pixel_y : ℤ
  residual_x : ℚ
  residual_y : ℚ
  residual_sq : ℚ
deriving DecidableEq, Repr

/-- Lines 1262-1269: `pixel = floor(fit)`,
`residual = fit - (pixel + 0.5)`, `residual_xy = sqrt(rx^2 + ry^2)`. -/
def toPixRow (fr : FitRow GridRow) : PixRow :=
  PixRow.mk fr.row fr.fit_x fr.fit_y
    (Int.floor fr.fit_x) (Int.floor fr.fit_y)
    (fr.fit_x - ((Int.floor fr.fit_x : ℚ) + 1 / 2))
    (fr.fit_y - ((Int.floor fr.fit_y : ℚ) + 1 / 2))
    ((fr.fit_x - ((Int.floor fr.fit_x : ℚ) + 1 / 2)) ^ 2 +
      (fr.fit_y - ((Int.floor fr.fit_y : ℚ) + 1 / 2)) ^ 2)

/-- Group key of lines 1273-1276: same integer pixel. -/
def samePix (r r' : PixRow) : Bool :=
  decide (r'.pixel_x = r.pixel_x) && decide (r'.pixel_y = r.pixel_y)

/-- Sort key of line 1277-1278: ascending lexicographic
`(order, pixel_x, pixel_y, residual_xy)` (ordering by `residual_xy` equals
ordering by `residual_sq` since the square root is monotone). -/
def pixKeyLe (a b : PixRow) : Bool :=
  decide (a.row.order < b.row.order) ||
  (decide (a.row.order = b.row.order) &&
    (decide (a.pixel_x < b.pixel_x) ||
      (decide (a.pixel_x = b.pixel_x) &&
        (decide (a.pixel_y < b.pixel_y) ||
          (decide (a.pixel_y = b.pixel_y) &&
            decide (a.residual_sq ≤ b.residual_sq))))))

/-- Insertion into a sorted list (the stable sort used to model
`sort_values`). -/
def insertSorted {α : Type} (le : α → α → Bool) (a : α) : List α → List α
  | [] => [a]
  | b :: bs => if le a b then a :: b :: bs else b :: insertSorted le a bs

/-- Insertion sort modelling `sort_values` (only the multiset of rows and
the key ordering matter to the claims). -/
def sortRows {α : Type} (le : α → α → Bool) : List α → List α
  | [] => []
  | a :: as => insertSorted le a (sortRows le as)

lemma mem_insertSorted {α : Type} {le : α → α → Bool} {a : α} {l : List α} :
    ∀ x ∈ insertSorted le a l, x = a ∨ x ∈ l := by
  induction l with
  | nil =>
    intro x hx
    simp only [insertSorted, List.mem_singleton] at hx
    exact Or.inl hx
  | cons b bs ih =>
    intro x hx
    simp only [insertSorted] at hx
    by_cases hle : le a b
    · rw [if_pos hle] at hx
      rcases List.mem_cons.mp hx with h1 | h1
      · exact Or.inl h1
      · exact Or.inr h1
    · rw [if_neg hle] at hx
      rcases List.mem_cons.mp hx with h1 | h1
      · exact Or.inr (by simp [h1])
      · rcases ih x h1 with h2 | h2
        · exact Or.inl h2
        · exact Or.inr (List.mem_cons_of_mem b h2)

lemma mem_sortRows {α : Type} {le : α → α → Bool} {l : List α} :
    ∀ x ∈ sortRows le l, x ∈ l := by
  induction l with
  | nil => intro x hx; simp [sortRows] at hx
  | cons a as ih =>
    intro x hx
    simp only [sortRows] at hx
    rcases mem_insertSorted x hx with h1 | h1
    · simp [h1]
    · simp [ih x h1]

/-- Line 1350-1351: the mask `residual_xy < map_to_image_displacement_threshold`,
i.e. `sqrt residual_sq < t`, which over the rationals is exactly
`0 < t ∧ residual_sq < t^2`. -/
def passThreshold (t : ℚ) (r : PixRow) : Bool :=
  decide (0 < t) && decide (r.residual_sq < t ^ 2)

/-- Lines 1353-1354: `drop_duplicates(subset=[pixel_x, pixel_y], keep="first")`
on the sorted, masked table. -/
def dropDuplicatePixels : List PixRow → List (ℤ × ℤ) → List PixRow
  | [], _ => []
  | r :: rs, seen =>
    if (r.pixel_x, r.pixel_y) ∈ seen then dropDuplicatePixels rs seen
    else r :: dropDuplicatePixels rs ((r.pixel_x, r.pixel_y) :: seen)

lemma mem_dropDuplicatePixels {l : List PixRow} :
    ∀ (seen : List (ℤ × ℤ)), ∀ x ∈ dropDuplicatePixels l seen, x ∈ l := by
  induction l with
  | nil => intro seen x hx; simp [dropDuplicatePixels] at hx
  | cons r rs ih =>
    intro seen x hx
    simp only [dropDuplicatePixels] at hx
    by_cases hs : (r.pixel_x, r.pixel_y) ∈ seen
    · rw [if_pos hs] at hx
      exact List.mem_cons_of_mem r (ih seen x hx)
    · rw [if_neg hs] at hx
      rcases List.mem_cons.mp hx with h1 | h1
      · simp [h1]
      · exact List.mem_cons_of_mem r
          (ih ((r.pixel_x, r.pixel_y) :: seen) x h1)

/-- The grid table built at convert_and_fit lines 1245-1252: a constant
`order` column next to the big wavelength and slit-position arrays. -/
def gridRows (o : ℚ) (pairs : List (ℚ × ℚ)) : List GridRow :=
  pairs.map (fun q => GridRow.mk o q.1 q.2)

/-- `newPixelValue` of `convert_and_fit` (lines 1254-1359): evaluate the
dispersion map on the grid (dropping non-positive fits), bin to integer
pixels, sort by `(order, pixel, residual)`, drop pixel groups with fewer
than 3 members, keep the rows displaced less than the threshold from their
pixel centre, and keep only the first (closest) row per pixel. -/
def newPixelValues (px py : GridRow → ℚ) (t : ℚ) (rows : List GridRow) :
    List PixRow :=
  dropDuplicatePixels
    (((sortRows pixKeyLe
          ((dispersion_map_to_pixel_arrays px py rows).map toPixRow)).filter
        (fun r => decide (2 < List.countP (samePix r)
          ((dispersion_map_to_pixel_arrays px py rows).map toPixRow)))).filter
      (passThreshold t))
    []

/-- `convert_and_fit` for one order: compute `newPixelValue` from the grid
and commit its rows to the wavelength and slit placeholder images. -/
def convert_and_fit (px py : GridRow → ℚ) (t o : ℚ)
    (pairs : List (ℚ × ℚ)) (wlMap slitMap : Image) : Image × Image :=
  commitRows
    ((newPixelValues px py t (gridRows o pairs)).map
      (fun r => CommitVal.mk r.pixel_x r.pixel_y
        r.row.wavelength r.row.slit_position))
    wlMap slitMap

/-- Well-formedness of a `PixRow` produced by the pipeline for order `o`:
the fits are the polynomial values at its spectral coordinates, the pixel
is their floor, and `residual_sq` is the squared displacement from the
pixel centre. -/
def PixRowWF (px py : GridRow → ℚ) (o : ℚ) (r : PixRow) : Prop :=
  r.row.order = o ∧
  r.fit_x = px r.row ∧ r.fit_y = py r.row ∧
  r.pixel_x = Int.floor r.fit_x ∧ r.pixel_y = Int.floor r.fit_y ∧
  r.residual_sq = (r.fit_x - ((r.pixel_x : ℚ) + 1 / 2)) ^ 2 +
    (r.fit_y - ((r.pixel_y : ℚ) + 1 / 2)) ^ 2

lemma mem_newPixelValues {px py : GridRow → ℚ} {t o : ℚ}
    {pairs : List (ℚ × ℚ)} {r : PixRow}
    (h : r ∈ newPixelValues px py t (gridRows o pairs)) :
    PixRowWF px py o r ∧ passThreshold t r = true := by
  unfold newPixelValues at h
  have h1 := mem_dropDuplicatePixels _ _ h
  have hpass := List.of_mem_filter h1
  have h2 := List.mem_of_mem_filter h1
  have h3 := List.mem_of_mem_filter h2
  have h4 := mem_sortRows _ h3
  rcases List.mem_map.mp h4 with ⟨fr, hfr, hfrEq⟩
  have hmem := List.mem_of_mem_filter hfr
  rcases List.mem_map.mp hmem with ⟨g, hg, hgEq⟩
  have hg' : g ∈ pairs.map (fun q => GridRow.mk o q.1 q.2) := hg
  rcases List.mem_map.mp hg' with ⟨q, hqmem, hqEq⟩
  refine ⟨?_, hpass⟩
  subst hfrEq
  refine ⟨?_, ?_, ?_, rfl, rfl, rfl⟩
  · show fr.row.order = o
    have hrowg : fr.row = g := by rw [← hgEq]
    rw [hrowg, ← hqEq]
  · show fr.fit_x = px fr.row
    rw [← hgEq]
  · show fr.fit_y = py fr.row
    rw [← hgEq]

lemma commitOne_write {m : Image} {x y : ℤ} {v : ℚ}
    (h : m (x, y) = none) : commitOne m x y v (x, y) = some v := by
  simp [commitOne, h]

lemma commitOne_other {m : Image} {x y : ℤ} {v : ℚ} {p : ℤ × ℤ}
    (hp : p ≠ (x, y)) : commitOne m x y v p = m p := by
  simp [commitOne, hp]

lemma commitRows_cons (a : CommitVal) (rs : List CommitVal)
    (wl sl : Image) :
    commitRows (a :: rs) wl sl =
      commitRows rs (commitOne wl a.pixel_x a.pixel_y a.wavelength)
        (commitOne sl a.pixel_x a.pixel_y a.slit_position) := rfl

lemma commitRows_new {rows : List CommitVal} :
    ∀ {wlMap slitMap : Image} {p : ℤ × ℤ},
    wlMap p = none → slitMap p = none →
    (commitRows rows wlMap slitMap).1 p ≠ none →
    ∃ r ∈ rows, (r.pixel_x, r.pixel_y) = p ∧
      (commitRows rows wlMap slitMap).1 p = some r.wavelength ∧
      (commitRows rows wlMap slitMap).2 p = some r.slit_position := by
  induction rows with
  | nil =>
    intro wlMap slitMap p hwl _ hch
    exact absurd hwl hch
  | cons a rs ih =>
    intro wlMap slitMap p hwl hsl hch
    rw [commitRows_cons] at hch ⊢
    by_cases hp : p = (a.pixel_x, a.pixel_y)
    · subst hp
      refine ⟨a, List.mem_cons_self a rs, rfl, ?_, ?_⟩
      · exact commitRows_preserves.1 a.wavelength (commitOne_write hwl)
      · exact commitRows_preserves.2 a.slit_position (commitOne_write hsl)
    · have hwl' : commitOne wlMap a.pixel_x a.pixel_y a.wavelength p
          = none := by
        rw [commitOne_other hp]; exact hwl
      have hsl' : commitOne slitMap a.pixel_x a.pixel_y a.slit_position p
          = none := by
        rw [commitOne_other hp]; exact hsl
      rcases ih hwl' hsl' hch with ⟨r, hr, hrest⟩
      exact ⟨r, List.mem_cons_of_mem a hr, hrest⟩

lemma sqrtQ_lt_of_sq_lt {s t : ℚ} (ht : 0 < t) (h : s < t ^ 2) :
    Real.sqrt (s : ℝ) < (t : ℝ) := by
  rw [Real.sqrt_lt' (by exact_mod_cast ht)]
  exact_mod_cast h

/-- C1: inverse agreement.  If `convert_and_fit` changes the wavelength
image at pixel `p` (i.e. it commits that pixel), then the committed
wavelength `wl` and slit position `s` land in both images, and evaluating
the forward dispersion map at `(order, wl, s)` gives fitted coordinates
whose Euclidean distance from the pixel centre `(p.1 + 1/2, p.2 + 1/2)` is
strictly below the displacement threshold `t`. -/
theorem commit_inverse_agreement (px py : GridRow → ℚ) (t o : ℚ)
    (pairs : List (ℚ × ℚ)) (wlMap slitMap : Image) (p : ℤ × ℤ)
    (hsync : wlMap p = none → slitMap p = none)
    (hchange : (convert_and_fit px py t o pairs wlMap slitMap).1 p ≠ wlMap p) :
    ∃ wl s : ℚ,
      (convert_and_fit px py t o pairs wlMap slitMap).1 p = some wl ∧
      (convert_and_fit px py t o pairs wlMap slitMap).2 p = some s ∧
      Real.sqrt (((px (GridRow.mk o wl s) - ((p.1 : ℚ) + 1 / 2)) ^ 2 +
        (py (GridRow.mk o wl s) - ((p.2 : ℚ) + 1 / 2)) ^ 2 : ℚ)) < (t : ℝ) := by
  unfold convert_and_fit at hchange ⊢
  cases hnone : wlMap p with
  | some v =>
    rw [hnone] at hchange
    exact absurd (commitRows_preserves.1 v hnone) hchange
  | none =>
  have hslnone := hsync hnone
  rw [hnone] at hchange
  rcases commitRows_new hnone hslnone hchange with ⟨c, hc, hcp, hwlv, hslv⟩
  rcases List.mem_map.mp hc with ⟨r, hr, hrEq⟩
  rcases mem_newPixelValues hr with ⟨hwf, hpass⟩
  rcases hwf with ⟨horder, hfx, hfy, hpx, hpy, hsq⟩
  refine ⟨r.row.wavelength, r.row.slit_position, ?_, ?_, ?_⟩
  · rw [hwlv, ← hrEq]
  · rw [hslv, ← hrEq]
  · have hrowEta : GridRow.mk o r.row.wavelength r.row.slit_position = r.row := by
      cases hrr : r.row with
      | mk a b c =>
        have : a = o := by rw [← horder, hrr]
        simp [this, hrr]
    have hp1 : (p.1 : ℚ) = (r.pixel_x : ℚ) := by
      rw [← hcp, ← hrEq]
    have hp2 : (p.2 : ℚ) = (r.pixel_y : ℚ) := by
      rw [← hcp, ← hrEq]
    simp only [passThreshold, Bool.and_eq_true, decide_eq_true_eq] at hpass
    have hlt : (px (GridRow.mk o r.row.wavelength r.row.slit_position) -
        ((p.1 : ℚ) + 1 / 2)) ^ 2 +
        (py (GridRow.mk o r.row.wavelength r.row.slit_position) -
        ((p.2 : ℚ) + 1 / 2)) ^ 2 < t ^ 2 := by
      rw [hrowEta, hp1, hp2, ← hfx, ← hfy, ← hsq]
      exact hpass.2
    exact sqrtQ_lt_of_sq_lt hpass.1 hlt

unseal Rat.add Rat.mul Rat.inv Rat.sub in
/-- Witness for `commit_inverse_agreement`: three grid samples land in pixel
`(0,0)`; the centred one (fit `(1/2, 1/2)`) is committed and its distance
from the pixel centre (zero) is below the threshold `1/10`. -/
theorem commit_inverse_agreement_witness :
    ∃ wl s : ℚ,
      (convert_and_fit (fun g => g.wavelength) (fun g => g.slit_position)
        (1 / 10) 1 [(1 / 2, 1 / 2), (2 / 5, 1 / 2), (3 / 5, 1 / 2)]
        (fun _ => none) (fun _ => none)).1 (0, 0) = some wl ∧
      (convert_and_fit (fun g => g.wavelength) (fun g => g.slit_position)
        (1 / 10) 1 [(1 / 2, 1 / 2), (2 / 5, 1 / 2), (3 / 5, 1 / 2)]
        (fun _ => none) (fun _ => none)).2 (0, 0) = some s ∧
      Real.sqrt (((GridRow.mk 1 wl s).wavelength - (((0 : ℤ) : ℚ) + 1 / 2)) ^ 2 +
        ((GridRow.mk 1 wl s).slit_position - (((0 : ℤ) : ℚ) + 1 / 2)) ^ 2 : ℚ)
        < ((1 / 10 : ℚ) : ℝ) :=
  commit_inverse_agreement (fun g => g.wavelength) (fun g => g.slit_position)
    (1 / 10) 1 [(1 / 2, 1 / 2), (2 / 5, 1 / 2), (3 / 5, 1 / 2)]
    (fun _ => none) (fun _ => none) (0, 0)
    (fun _ => rfl) (by decide)

/-- Python `int()` truncation toward zero, as applied to the stamp bounds
(`int(np.max(...))` / `int(np.min(...))`, lines 343-346). -/
def pyInt (q : ℚ) : ℤ :=
  if q < 0 then -Int.floor (-q) else Int.floor q

/-- Length of the Python slice `l[a:b]` of a length-`n` sequence (negative
indices count from the end, out-of-range indices are clamped). -/
def pySliceLen (a b : ℤ) (n : ℕ) : ℕ :=
  ((if b < 0 then max ((n : ℤ) + b) 0 else min b n) -
    (if a < 0 then max ((n : ℤ) + a) 0 else min a n)).toNat

/-- Lower stamp bound (line 343/345): `int(np.max([x - windowHalf, 0]))`. -/
def stampXlow (x : ℚ) (windowHalf : ℕ) : ℤ :=
  pyInt (max (x - (windowHalf : ℚ)) 0)

/-- Upper stamp bound (line 344/346):
`int(np.min([x + windowHalf, frame_extent]))`. -/
def stampXup (x : ℚ) (windowHalf frameW : ℕ) : ℤ :=
  pyInt (min (x + (windowHalf : ℚ)) (frameW : ℚ))

/-- Number of pixels of the extracted stamp along one axis
(`stamp = pinholeFrame[ylow:yup, xlow:xup]`, line 347). -/
def stampWidth (x : ℚ) (windowHalf frameW : ℕ) : ℕ :=
  pySliceLen (stampXlow x windowHalf) (stampXup x windowHalf frameW) frameW

/-- One source returned by the peak finder, in stamp coordinates. -/
structure Source where
  xcentroid : ℚ
  ycentroid : ℚ
deriving DecidableEq, Repr

/-- Squared distance from the stamp reference point
`(windowHalf, windowHalf)` to a source.  The source compares
`new_resid = sqrt distSq` against `old_resid` (lines 373-385); both sides
are non-negative, so carrying the squares is an exact translation. -/
def distSqToCentre (windowHalf : ℕ) (s : Source) : ℚ :=
  ((windowHalf : ℚ) - s.xcentroid) ^ 2 + ((windowHalf : ℚ) - s.ycentroid) ^ 2

/-- One step of the multi-source loop (lines 377-385): if the candidate is
strictly closer to the reference point than the best so far, record its
frame coordinates and tighten the rejection radius. -/
def selectStep (windowHalf : ℕ) (xlow ylow : ℤ)
    (st : Option (ℚ × ℚ) × ℚ) (s : Source) : Option (ℚ × ℚ) × ℚ :=
  if distSqToCentre windowHalf s < st.2 then
    (some (s.xcentroid + (xlow : ℚ), s.ycentroid + (ylow : ℚ)),
      distSqToCentre windowHalf s)
  else st

/-- The multi-source loop with initial rejection radius
`old_resid = windowHalf * 4` (line 373); returns the recorded frame
coordinates, `none` when no iteration fired (in Python that branch leaves
`observed_x` unbound). -/
def selectClosest (windowHalf : ℕ) (xlow ylow : ℤ)
    (sources : List Source) : Option (ℚ × ℚ) :=
  (sources.foldl (selectStep windowHalf xlow ylow)
    (none, (4 * (windowHalf : ℚ)) ^ 2)).1

/-- Result of `detect_pinhole_arc_line` for one predicted line:
`assigned` when observed coordinates are set, `notDetected` when the finder
returned no sources (observed values NaN), `crash` for the fall-through in
which Python would reference the unbound `observed_x`. -/
inductive DetectOutcome where
  | assigned (observed_x observed_y : ℚ)
  | notDetected
  | crash
deriving DecidableEq, Repr

/-- `detect_pinhole_arc_line` (lines 337-399): clip a stamp around the
predicted position, run the peak finder on it, and pick among the returned
sources.  The peak finder (`DAOStarFinder`, an external library) is a
parameter receiving the stamp bounds. -/
def detect_pinhole_arc_line (frameH frameW windowHalf : ℕ)
    (finder : ℤ → ℤ → ℤ → ℤ → List Source) (x y : ℚ) : DetectOutcome :=
  match finder (stampXlow x windowHalf) (stampXup x windowHalf frameW)
      (stampXlow y windowHalf) (stampXup y windowHalf frameH) with
  | [] => DetectOutcome.notDetected
  | [s] => DetectOutcome.assigned (s.xcentroid + (stampXlow x windowHalf : ℚ))
      (s.ycentroid + (stampXlow y windowHalf : ℚ))
  | s1 :: s2 :: ss =>
    match selectClosest windowHalf (stampXlow x windowHalf)
        (stampXlow y windowHalf) (s1 :: s2 :: ss) with
    | some p => DetectOutcome.assigned p.1 p.2
    | none => DetectOutcome.crash

unseal Rat.add Rat.mul Rat.inv Rat.sub in
/-- C7 counterexample: with `pixel-window-size = 9` (so `windowHalf = 4`) on
a 100x100 frame, the stamp at the interior point `x = 50` spans `[46, 54)`,
8 pixels - not the claimed `2*(9/2 floored)+1 = 9`; and at `x = 1` the
clipped stamp is 5 < 9 pixels wide on the x-axis, yet the line is *not*
marked not-detected: detection proceeds and assigns the found source. -/
theorem stamp_side_counterexample :
    stampWidth 50 4 100 = 8 ∧
    2 * (9 / 2 : ℕ) + 1 = 9 ∧
    ¬ (stampWidth 50 4 100 = 2 * (9 / 2 : ℕ) + 1) ∧
    stampWidth 1 4 100 = 5 ∧
    detect_pinhole_arc_line 100 100 4
      (fun _ _ _ _ => [Source.mk (1 / 2) (1 / 2)]) 1 50 ≠
      DetectOutcome.notDetected := by
  decide

/-- C7 amended: the stamp is
`frame[int(max(y-wh,0)):int(min(y+wh,H)), int(max(x-wh,0)):int(min(x+wh,W))]`
with `wh = (pixel-window-size)/2` floored, so its unclipped side is `2*wh`
(not `2*wh + 1`); no stamp-size check exists: the line is marked
not-detected exactly when the peak finder returns no sources on the
(possibly clipped) stamp. -/
theorem stamp_extraction_amended (frameH frameW windowHalf : ℕ)
    (finder : ℤ → ℤ → ℤ → ℤ → List Source) (x y : ℚ)
    (hx1 : (windowHalf : ℚ) ≤ x) (hx2 : x + (windowHalf : ℚ) ≤ (frameW : ℚ)) :
    stampWidth x windowHalf frameW = 2 * windowHalf ∧
    (detect_pinhole_arc_line frameH frameW windowHalf finder x y =
        DetectOutcome.notDetected ↔
      finder (stampXlow x windowHalf) (stampXup x windowHalf frameW)
        (stampXlow y windowHalf) (stampXup y windowHalf frameH) = []) := by
  constructor
  · have hsub : max (x - (windowHalf : ℚ)) 0 = x - (windowHalf : ℚ) :=
      max_eq_left (sub_nonneg.mpr hx1)
    have hadd : min (x + (windowHalf : ℚ)) (frameW : ℚ)
        = x + (windowHalf : ℚ) := min_eq_left hx2
    have hlow : stampXlow x windowHalf = Int.floor x - windowHalf := by
      rw [stampXlow, hsub, pyInt, if_neg (not_lt.mpr (sub_nonneg.mpr hx1)),
        Int.floor_sub_nat]
    have hup : stampXup x windowHalf frameW = Int.floor x + windowHalf := by
      have h0 : (0 : ℚ) ≤ x + (windowHalf : ℚ) :=
        le_add_of_le_of_nonneg (le_trans (Nat.cast_nonneg _) hx1)
          (Nat.cast_nonneg _)
      rw [stampXup, hadd, pyInt, if_neg (not_lt.mpr h0), Int.floor_add_nat]
    have hfx1 : (windowHalf : ℤ) ≤ Int.floor x := by
      rw [Int.le_floor]
      exact_mod_cast hx1
    have hfx2 : Int.floor x + (windowHalf : ℤ) ≤ (frameW : ℤ) := by
      have := Int.floor_le_floor hx2
      rw [Int.floor_add_nat, Int.floor_natCast] at this
      exact this
    rw [stampWidth, hlow, hup, pySliceLen,
      if_neg (by omega), if_neg (by omega), min_eq_left (by omega),
      min_eq_left (by omega)]
    omega
  · cases hf : finder (stampXlow x windowHalf) (stampXup x windowHalf frameW)
        (stampXlow y windowHalf) (stampXup y windowHalf frameH) with
    | nil => simp [detect_pinhole_arc_line, hf]
    | cons s1 ss =>
      cases ss with
      | nil => simp [detect_pinhole_arc_line, hf]
      | cons s2 ss2 =>
        simp only [detect_pinhole_arc_line, hf]
        cases selectClosest windowHalf (stampXlow x windowHalf)
            (stampXlow y windowHalf) (s1 :: s2 :: ss2) with
        | some p => simp
        | none => simp

unseal Rat.add Rat.mul Rat.inv Rat.sub in
/-- Witness for `stamp_extraction_amended`: window half-size 4 at the
interior point `x = 50` of a 100-pixel-wide frame. -/
theorem stamp_extraction_amended_witness :
    stampWidth 50 4 100 = 2 * 4 ∧
    (detect_pinhole_arc_line 100 100 4 (fun _ _ _ _ => []) 50 50 =
        DetectOutcome.notDetected ↔
      (fun _ _ _ _ => ([] : List Source)) (stampXlow 50 4) (stampXup 50 4 100)
        (stampXlow 50 4) (stampXup 50 4 100) = []) :=
  stamp_extraction_amended 100 100 4 (fun _ _ _ _ => []) 50 50
    (by decide) (by decide)

lemma selectStep_isSome {windowHalf : ℕ} {xlow ylow : ℤ}
    {st : Option (ℚ × ℚ) × ℚ} (h : st.1.isSome = true) (s : Source) :
    ((selectStep windowHalf xlow ylow st s).1).isSome = true := by
  unfold selectStep
  split
  · simp
  · exact h

lemma selectFold_isSome {windowHalf : ℕ} {xlow ylow : ℤ}
    (l : List Source) :
    ∀ st : Option (ℚ × ℚ) × ℚ, st.1.isSome = true →
      ((l.foldl (selectStep windowHalf xlow ylow) st).1).isSome = true := by
  induction l with
  | nil => intro st h; exact h
  | cons s ss ih =>
    intro st h
    exact ih _ (selectStep_isSome h s)

lemma distSq_le_two_sq {windowHalf : ℕ} {s : Source}
    (h1 : 0 ≤ s.xcentroid) (h2 : s.xcentroid ≤ 2 * (windowHalf : ℚ))
    (h3 : 0 ≤ s.ycentroid) (h4 : s.ycentroid ≤ 2 * (windowHalf : ℚ)) :
    distSqToCentre windowHalf s ≤ 2 * (windowHalf : ℚ) ^ 2 := by
  unfold distSqToCentre
  have hx : ((windowHalf : ℚ) - s.xcentroid) ^ 2 ≤ (windowHalf : ℚ) ^ 2 :=
    sq_le_sq' (by linarith) (by linarith)
  have hy : ((windowHalf : ℚ) - s.ycentroid) ^ 2 ≤ (windowHalf : ℚ) ^ 2 :=
    sq_le_sq' (by linarith) (by linarith)
  linarith

/-- C9: whenever the peak finder returns a non-empty source list whose
members lie inside the stamp box `[0, 2*windowHalf]^2` (with a positive
window), `detect_pinhole_arc_line` assigns observed coordinates: every
source is within `windowHalf * sqrt 2` of the reference point
`(windowHalf, windowHalf)`, strictly below the initial rejection radius
`4 * windowHalf` of the multi-source loop, so the branch never falls
through with `observed_x` unbound. -/
theorem source_selection_safety (frameH frameW windowHalf : ℕ)
    (finder : ℤ → ℤ → ℤ → ℤ → List Source) (x y : ℚ)
    (hwh : 1 ≤ windowHalf)
    (hbox : ∀ s ∈ finder (stampXlow x windowHalf) (stampXup x windowHalf frameW)
        (stampXlow y windowHalf) (stampXup y windowHalf frameH),
      0 ≤ s.xcentroid ∧ s.xcentroid ≤ 2 * (windowHalf : ℚ) ∧
      0 ≤ s.ycentroid ∧ s.ycentroid ≤ 2 * (windowHalf : ℚ))
    (hne : finder (stampXlow x windowHalf) (stampXup x windowHalf frameW)
        (stampXlow y windowHalf) (stampXup y windowHalf frameH) ≠ []) :
    (∀ s ∈ finder (stampXlow x windowHalf) (stampXup x windowHalf frameW)
        (stampXlow y windowHalf) (stampXup y windowHalf frameH),
      Real.sqrt ((distSqToCentre windowHalf s : ℚ) : ℝ) ≤
        (windowHalf : ℝ) * Real.sqrt 2) ∧
    (windowHalf : ℝ) * Real.sqrt 2 < 4 * (windowHalf : ℝ) ∧
    ∃ a b : ℚ, detect_pinhole_arc_line frameH frameW windowHalf finder x y =
      DetectOutcome.assigned a b := by
  have hwh' : (1 : ℚ) ≤ (windowHalf : ℚ) := by exact_mod_cast hwh
  refine ⟨?_, ?_, ?_⟩
  · intro s hs
    rcases hbox s hs with ⟨h1, h2, h3, h4⟩
    have hd := distSq_le_two_sq h1 h2 h3 h4
    calc Real.sqrt ((distSqToCentre windowHalf s : ℚ) : ℝ)
        ≤ Real.sqrt ((2 * (windowHalf : ℚ) ^ 2 : ℚ) : ℝ) :=
          Real.sqrt_le_sqrt (by exact_mod_cast hd)
      _ = (windowHalf : ℝ) * Real.sqrt 2 := by
          push_cast
          rw [Real.sqrt_mul (by norm_num), Real.sqrt_sq (by positivity)]
          ring
  · have h2lt : Real.sqrt 2 < 4 :=
      (Real.sqrt_lt' (by norm_num)).mpr (by norm_num)
    have hwpos : (0 : ℝ) < (windowHalf : ℝ) := by
      have : (0 : ℕ) < windowHalf := hwh
      exact_mod_cast this
    calc (windowHalf : ℝ) * Real.sqrt 2 < (windowHalf : ℝ) * 4 :=
          mul_lt_mul_of_pos_left h2lt hwpos
      _ = 4 * (windowHalf : ℝ) := by ring
  · cases hf : finder (stampXlow x windowHalf) (stampXup x windowHalf frameW)
        (stampXlow y windowHalf) (stampXup y windowHalf frameH) with
    | nil => exact absurd hf hne
    | cons s1 ss =>
      cases ss with
      | nil =>
        exact ⟨s1.xcentroid + (stampXlow x windowHalf : ℚ),
          s1.ycentroid + (stampXlow y windowHalf : ℚ),
          by simp [detect_pinhole_arc_line, hf]⟩
      | cons s2 ss2 =>
        have hb1 := hbox s1 (by rw [hf]; exact List.mem_cons_self _ _)
        have hd1 : distSqToCentre windowHalf s1 < (4 * (windowHalf : ℚ)) ^ 2 := by
          have hle := distSq_le_two_sq hb1.1 hb1.2.1 hb1.2.2.1 hb1.2.2.2
          nlinarith
        have hsome : (selectClosest windowHalf (stampXlow x windowHalf)
            (stampXlow y windowHalf) (s1 :: s2 :: ss2)).isSome = true := by
          unfold selectClosest
          rw [List.foldl_cons]
          apply selectFold_isSome
          have hstep : selectStep windowHalf (stampXlow x windowHalf)
              (stampXlow y windowHalf) (none, (4 * (windowHalf : ℚ)) ^ 2) s1 =
              (some (s1.xcentroid + ((stampXlow x windowHalf : ℤ) : ℚ),
                s1.ycentroid + ((stampXlow y windowHalf : ℤ) : ℚ)),
                distSqToCentre windowHalf s1) := by
            unfold selectStep
            rw [if_pos hd1]
          rw [hstep]
          simp
        rcases Option.isSome_iff_exists.mp hsome with ⟨p, hp⟩
        refine ⟨p.1, p.2, ?_⟩
        simp only [detect_pinhole_arc_line, hf, hp]

unseal Rat.add Rat.mul Rat.inv Rat.sub in
/-- Witness for `source_selection_safety`: window half-size 4, a finder
returning two in-box sources; the loop assigns the closer one. -/
theorem source_selection_safety_witness :
    (∀ s ∈ (fun (_ _ _ _ : ℤ) => [Source.mk 4 4, Source.mk 0 0])
        (stampXlow 50 4) (stampXup 50 4 100)
        (stampXlow 50 4) (stampXup 50 4 100),
      Real.sqrt ((distSqToCentre 4 s : ℚ) : ℝ) ≤ ((4 : ℕ) : ℝ) * Real.sqrt 2) ∧
    ((4 : ℕ) : ℝ) * Real.sqrt 2 < 4 * ((4 : ℕ) : ℝ) ∧
    ∃ a b : ℚ, detect_pinhole_arc_line 100 100 4
      (fun (_ _ _ _ : ℤ) => [Source.mk 4 4, Source.mk 0 0]) 50 50 =
      DetectOutcome.assigned a b :=
  source_selection_safety 100 100 4
    (fun (_ _ _ _ : ℤ) => [Source.mk 4 4, Source.mk 0 0]) 50 50
    (by decide) (by decide) (by decide)

/-- Column name of coefficient `c_{ijk}` (the f-string `c{i}{j}{k}` of
write_map_to_file, lines 438/451). -/
def coeffName (i j k : ℕ) : String :=
  "c" ++ toString i ++ toString j ++ toString k

/-- The coefficient-writing loop of `write_map_to_file` (lines 434-439 and
447-452): nested loops over `i ≤ order-deg`, `j ≤ wavelength-deg`,
`k ≤ slit-deg`, assigning `coeff[n_coeff]` to the column named `c{i}{j}{k}`
and incrementing `n_coeff` by one; returns the accumulated column list
together with the final counter. -/
def coeffEntriesLoop (orderDeg wavelengthDeg slitDeg : ℕ)
    (coeffs : List ℚ) : List (String × ℚ) × ℕ :=
  (List.range (orderDeg + 1)).foldl (fun acc i =>
    (List.range (wavelengthDeg + 1)).foldl (fun acc j =>
      (List.range (slitDeg + 1)).foldl (fun acc k =>
        (acc.1 ++ [(coeffName i j k, coeffs.getD acc.2 0)], acc.2 + 1))
        acc) acc) ([], 0)

/-- One axis record of the dispersion-map table: the `axis`, `order-deg`,
`wavelength-deg` and `slit-deg` columns followed by the coefficient
columns in insertion order. -/
structure AxisRecord where
  axis : String
  orderDeg : ℕ
  wavelengthDeg : ℕ
  slitDeg : ℕ
  coeffColumns : List (String × ℚ)
deriving DecidableEq, Repr

/-- Build one axis record as `write_map_to_file` does (lines 428-452). -/
def write_axis_record (axis : String) (orderDeg wavelengthDeg slitDeg : ℕ)
    (coeffs : List ℚ) : AxisRecord :=
  AxisRecord.mk axis orderDeg wavelengthDeg slitDeg
    (coeffEntriesLoop orderDeg wavelengthDeg slitDeg coeffs).1

/-- The column names of a record, in serialisation order. -/
def recordColumns (r : AxisRecord) : List String :=
  ["axis", "order-deg", "wavelength-deg", "slit-deg"] ++
    r.coeffColumns.map Prod.fst

/-- The two records written to the map file's table (line 487:
`listOfDictionaries=[coeff_dict_x, coeff_dict_y]`). -/
def write_map_records (xcoeff ycoeff : List ℚ)
    (orderDeg wavelengthDeg slitDeg : ℕ) : List AxisRecord :=
  [write_axis_record "x" orderDeg wavelengthDeg slitDeg xcoeff,
   write_axis_record "y" orderDeg wavelengthDeg slitDeg ycoeff]

lemma foldl_range_block {β : Type} (step : List β × ℕ → ℕ → List β × ℕ)
    (g : ℕ → ℕ → List β) (c : ℕ)
    (hstep : ∀ a n j, step (a, n) j = (a ++ g j n, n + c)) :
    ∀ (m : ℕ) (acc : List β) (n : ℕ),
      (List.range m).foldl step (acc, n) =
        (acc ++ ((List.range m).map (fun j => g j (n + j * c))).flatten,
          n + m * c) := by
  intro m
  induction m with
  | zero => intro acc n; simp
  | succ m ih =>
    intro acc n
    rw [List.range_succ, List.foldl_append, ih, List.foldl_cons,
      List.foldl_nil, hstep, List.map_append, List.flatten_append]
    refine congrArg₂ Prod.mk ?_ (by ring)
    simp [List.append_assoc]

lemma flatten_map_singleton {α β : Type} (l : List α) (f : α → β) :
    (l.map (fun x => [f x])).flatten = l.map f := by
  induction l with
  | nil => rfl
  | cons a as ih =>
    simp only [List.map_cons, List.flatten_cons, ih, List.singleton_append]

lemma coeff_inner_loop (coeffs : List ℚ) (i j ds : ℕ) :
    ∀ (acc : List (String × ℚ)) (n : ℕ),
      (List.range (ds + 1)).foldl (fun acc k =>
          (acc.1 ++ [(coeffName i j k, coeffs.getD acc.2 0)], acc.2 + 1))
        (acc, n) =
      (acc ++ (List.range (ds + 1)).map (fun k =>
          (coeffName i j k, coeffs.getD (n + k) 0)), n + (ds + 1)) := by
  intro acc n
  rw [foldl_range_block _ (fun k n => [(coeffName i j k, coeffs.getD n 0)]) 1
    (fun a n k => rfl) (ds + 1) acc n]
  refine congrArg₂ Prod.mk ?_ (by ring)
  congr 1
  rw [flatten_map_singleton (List.range (ds + 1))
    (fun k => (coeffName i j k, coeffs.getD (n + k * 1) 0))]
  simp [Nat.mul_one]

lemma coeff_middle_loop (coeffs : List ℚ) (i dl ds : ℕ) :
    ∀ (acc : List (String × ℚ)) (n : ℕ),
      (List.range (dl + 1)).foldl (fun acc j =>
          (List.range (ds + 1)).foldl (fun acc k =>
            (acc.1 ++ [(coeffName i j k, coeffs.getD acc.2 0)], acc.2 + 1))
            acc)
        (acc, n) =
      (acc ++ ((List.range (dl + 1)).map (fun j =>
          (List.range (ds + 1)).map (fun k =>
            (coeffName i j k, coeffs.getD (n + j * (ds + 1) + k) 0)))).flatten,
        n + (dl + 1) * (ds + 1)) := by
  intro acc n
  rw [foldl_range_block _ (fun j n => (List.range (ds + 1)).map (fun k =>
      (coeffName i j k, coeffs.getD (n + k) 0))) (ds + 1)
    (fun a n j => coeff_inner_loop coeffs i j ds a n) (dl + 1) acc n]

/-- Closed form of the serialiser's coefficient loop: the column for
`(i, j, k)` carries the coefficient at flattened index
`i*(wavelengthDeg+1)*(slitDeg+1) + j*(slitDeg+1) + k`
(`i` outermost, `k` innermost). -/
lemma coeffEntriesLoop_closed (orderDeg wavelengthDeg slitDeg : ℕ)
    (coeffs : List ℚ) :
    (coeffEntriesLoop orderDeg wavelengthDeg slitDeg coeffs).1 =
      (List.range (orderDeg + 1)).flatMap (fun i =>
        (List.range (wavelengthDeg + 1)).flatMap (fun j =>
          (List.range (slitDeg + 1)).map (fun k =>
            (coeffName i j k,
              coeffs.getD (i * (wavelengthDeg + 1) * (slitDeg + 1) +
                j * (slitDeg + 1) + k) 0)))) := by
  unfold coeffEntriesLoop
  rw [foldl_range_block _
    (fun i n => ((List.range (wavelengthDeg + 1)).map (fun j =>
      (List.range (slitDeg + 1)).map (fun k =>
        (coeffName i j k, coeffs.getD (n + j * (slitDeg + 1) + k) 0)))).flatten)
    ((wavelengthDeg + 1) * (slitDeg + 1))
    (fun a n i => by
      rw [coeff_middle_loop coeffs i wavelengthDeg slitDeg a n])
    (orderDeg + 1) [] 0]
  simp only [List.nil_append, List.flatMap_def]
  congr 1
  apply List.map_congr_left
  intro i _
  congr 1
  apply List.map_congr_left
  intro j _
  apply List.map_congr_left
  intro k _
  congr 2
  ring

/-- C6: the serialiser writes one record per axis (`x` first, then `y`),
each with columns `axis`, `order-deg`, `wavelength-deg`, `slit-deg`
followed by one column per coefficient named `c{i}{j}{k}` in loop order
(`i` outermost, `k` innermost), and the column `c{i}{j}{k}` holds the
coefficient at flattened index
`i*(wavelengthDeg+1)*(slitDeg+1) + j*(slitDeg+1) + k` of the vector. -/
theorem coefficient_ordering (orderDeg wavelengthDeg slitDeg : ℕ)
    (xcoeff ycoeff : List ℚ) :
    (write_map_records xcoeff ycoeff orderDeg wavelengthDeg slitDeg).map
      (fun r => r.axis) = ["x", "y"] ∧
    (∀ r ∈ write_map_records xcoeff ycoeff orderDeg wavelengthDeg slitDeg,
      r.orderDeg = orderDeg ∧ r.wavelengthDeg = wavelengthDeg ∧
      r.slitDeg = slitDeg ∧
      recordColumns r = ["axis", "order-deg", "wavelength-deg", "slit-deg"] ++
        (List.range (orderDeg + 1)).flatMap (fun i =>
          (List.range (wavelengthDeg + 1)).flatMap (fun j =>
            (List.range (slitDeg + 1)).map (fun k => coeffName i j k)))) ∧
    (write_axis_record "x" orderDeg wavelengthDeg slitDeg xcoeff).coeffColumns
      = (List.range (orderDeg + 1)).flatMap (fun i =>
          (List.range (wavelengthDeg + 1)).flatMap (fun j =>
            (List.range (slitDeg + 1)).map (fun k =>
              (coeffName i j k,
                xcoeff.getD (i * (wavelengthDeg + 1) * (slitDeg + 1) +
                  j * (slitDeg + 1) + k) 0)))) ∧
    (write_axis_record "y" orderDeg wavelengthDeg slitDeg ycoeff).coeffColumns
      = (List.range (orderDeg + 1)).flatMap (fun i =>
          (List.range (wavelengthDeg + 1)).flatMap (fun j =>
            (List.range (slitDeg + 1)).map (fun k =>
              (coeffName i j k,
                ycoeff.getD (i * (wavelengthDeg + 1) * (slitDeg + 1) +
                  j * (slitDeg + 1) + k) 0)))) := by
  have hcols : ∀ (axis : String) (coeffs : List ℚ),
      recordColumns (write_axis_record axis orderDeg wavelengthDeg slitDeg
        coeffs) =
      ["axis", "order-deg", "wavelength-deg", "slit-deg"] ++
        (List.range (orderDeg + 1)).flatMap (fun i =>
          (List.range (wavelengthDeg + 1)).flatMap (fun j =>
            (List.range (slitDeg + 1)).map (fun k => coeffName i j k))) := by
    intro axis coeffs
    unfold recordColumns write_axis_record
    rw [coeffEntriesLoop_closed]
    congr 1
    simp [List.map_flatMap, List.map_map, Function.comp_def]
  refine ⟨rfl, ?_, ?_, ?_⟩
  · intro r hr
    rcases List.mem_cons.mp hr with h | h
    · subst h
      exact ⟨rfl, rfl, rfl, hcols "x" xcoeff⟩
    · rcases List.mem_cons.mp h with h' | h'
      · subst h'
        exact ⟨rfl, rfl, rfl, hcols "y" ycoeff⟩
      · exact absurd h' (List.not_mem_nil r)
  · exact coeffEntriesLoop_closed orderDeg wavelengthDeg slitDeg xcoeff
  · exact coeffEntriesLoop_closed orderDeg wavelengthDeg slitDeg ycoeff

/-- Witness for `coefficient_ordering`: the x-axis record of a map with
degrees `(1, 1, 0)` and coefficient vector `[1, 2, 3, 4]`. -/
theorem coefficient_ordering_witness :
    (write_axis_record "x" 1 1 0 [1, 2, 3, 4]).orderDeg = 1 ∧
    (write_axis_record "x" 1 1 0 [1, 2, 3, 4]).wavelengthDeg = 1 ∧
    (write_axis_record "x" 1 1 0 [1, 2, 3, 4]).slitDeg = 0 ∧
    recordColumns (write_axis_record "x" 1 1 0 [1, 2, 3, 4]) =
      ["axis", "order-deg", "wavelength-deg", "slit-deg"] ++
        (List.range (1 + 1)).flatMap (fun i =>
          (List.range (1 + 1)).flatMap (fun j =>
            (List.range (0 + 1)).map (fun k => coeffName i j k))) :=
  (coefficient_ordering 1 1 0 [1, 2, 3, 4] [5, 6, 7, 8]).2.1
    (write_axis_record "x" 1 1 0 [1, 2, 3, 4]) (List.mem_cons_self _ _)

/-- A shift row of `get_predicted_line_list` (lines 291-302): the
`(wavelength, order)` key with the shifts computed on the mid-slit rows. -/
structure ShiftRow where
  wavelength : ℚ
  order : ℚ
  shift_x : ℚ
  shift_y : ℚ
deriving DecidableEq, Repr

/-- Lines 291-302: on the copy of the fitted table, set
`shift_x = detector_x - fit_x` and `shift_y = detector_y - fit_y` for the
rows with `slit_index == mid_slit_index` (all other rows keep a null
shift and are discarded by the `notnull` filter), keeping the
`(wavelength, order, shift_x, shift_y)` columns.  `detector_x`/`detector_y`
are the catalogue's predicted positions - no centroid has been observed at
this stage. -/
def shiftTable (midSlitIndex : ℤ) (fitted : List (FitRow CatRow)) :
    List ShiftRow :=
  (fitted.filter (fun fr => decide (fr.row.slit_index = midSlitIndex))).map
    (fun fr => ShiftRow.mk fr.row.wavelength fr.row.order
      (fr.row.detector_x - fr.fit_x) (fr.row.detector_y - fr.fit_y))

/-- Lines 300-319: outer-merge the shifts onto the fitted table on
`(wavelength, order)`, drop the rows left with a null shift, subtract the
shift from each row's predicted `detector_x`/`detector_y`, and drop the
helper columns. -/
def mergeApplyShifts (fitted : List (FitRow CatRow))
    (shifts : List ShiftRow) : List CatRow :=
  fitted.flatMap (fun fr =>
    (shifts.filter (fun s => decide (s.wavelength = fr.row.wavelength) &&
        decide (s.order = fr.row.order))).map
      (fun s => CatRow.mk fr.row.order fr.row.wavelength fr.row.slit_index
        fr.row.slit_position (fr.row.detector_x - s.shift_x)
        (fr.row.detector_y - s.shift_y)))

/-- `get_predicted_line_list`, first-guess branch (lines 276-319): evaluate
the prior dispersion map on the catalogue (dropping rows with non-positive
fits), build the mid-slit shift table from the *catalogue-predicted*
positions, and apply the shifts to every matching row's predicted guess.
Detection has not run yet at this point. -/
def get_predicted_line_list_with_guess (px py : CatRow → ℚ)
    (midSlitIndex : ℤ) (catalogue : List CatRow) : List CatRow :=
  mergeApplyShifts (dispersion_map_to_pixel_arrays px py catalogue)
    (shiftTable midSlitIndex (dispersion_map_to_pixel_arrays px py catalogue))

/-- Modelled from the spec: the shift estimator as claim C8 (spec section
4.4) states it - an observed centroid `obs` per row is available first, the
shift is `observed minus prior-map fit` on the mid-slit rows that have both
an observed centroid and a prior evaluation, and that shift is applied to
every row's predicted guess.  This definition exists only to be compared
with `get_predicted_line_list_with_guess`, which is what the source does. -/
def claimShiftTable (midSlitIndex : ℤ) (obs : CatRow → Option (ℚ × ℚ))
    (fitted : List (FitRow CatRow)) : List ShiftRow :=
  (fitted.filter (fun fr => decide (fr.row.slit_index = midSlitIndex) &&
      (obs fr.row).isSome)).map
    (fun fr => ShiftRow.mk fr.row.wavelength fr.row.order
      (((obs fr.row).getD (0, 0)).1 - fr.fit_x)
      (((obs fr.row).getD (0, 0)).2 - fr.fit_y))

/-- Modelled from the spec: the whole claimed estimator (see
`claimShiftTable`). -/
def claimShiftEstimator (px py : CatRow → ℚ) (midSlitIndex : ℤ)
    (obs : CatRow → Option (ℚ × ℚ)) (catalogue : List CatRow) :
    List CatRow :=
  mergeApplyShifts (dispersion_map_to_pixel_arrays px py catalogue)
    (claimShiftTable midSlitIndex obs
      (dispersion_map_to_pixel_arrays px py catalogue))

unseal Rat.add Rat.mul Rat.inv Rat.sub in
/-- C8 counterexample: one mid-slit catalogue row with predicted guess
`(10, 10)`, prior-map evaluation `(8, 8)`, and an observed centroid at
`(11, 11)`.  The code shifts the guess by `predicted - fit = 2` giving
`(8, 8)`; the claimed `observed - fit = 3` shift would give `(7, 7)`:
the estimator does not use observed centroids (none exist at that stage). -/
theorem shift_estimator_counterexample :
    get_predicted_line_list_with_guess (fun _ => 8) (fun _ => 8) 5
      [CatRow.mk 1 100 5 0 10 10] = [CatRow.mk 1 100 5 0 8 8] ∧
    claimShiftEstimator (fun _ => 8) (fun _ => 8) 5
      (fun _ => some (11, 11)) [CatRow.mk 1 100 5 0 10 10] =
      [CatRow.mk 1 100 5 0 7 7] ∧
    ¬ (get_predicted_line_list_with_guess (fun _ => 8) (fun _ => 8) 5
        [CatRow.mk 1 100 5 0 10 10] =
      claimShiftEstimator (fun _ => 8) (fun _ => 8) 5
        (fun _ => some (11, 11)) [CatRow.mk 1 100 5 0 10 10]) := by
  refine ⟨by decide, by decide, ?_⟩
  intro h
  rw [(by decide : get_predicted_line_list_with_guess (fun _ => 8)
      (fun _ => 8) 5 [CatRow.mk 1 100 5 0 10 10] =
      [CatRow.mk 1 100 5 0 8 8]),
    (by decide : claimShiftEstimator (fun _ => 8) (fun _ => 8) 5
      (fun _ => some (11, 11)) [CatRow.mk 1 100 5 0 10 10] =
      [CatRow.mk 1 100 5 0 7 7])] at h
  exact absurd h (by decide)

/-- C8 amended: when a prior dispersion map exists, the shift estimator
computes `(dx, dy) = (catalogue-predicted x - prior-map fit x, same in y)`
on the mid-slit rows surviving the prior-map evaluation (no centroid has
been observed yet), and every returned row is an input row with positive
prior-map fits whose guess has that shift subtracted, matched on
`(wavelength, order)`; rows with no surviving mid-slit match (in
particular rows with no prior evaluation) are dropped. -/
theorem shift_estimator_amended (px py : CatRow → ℚ) (midSlitIndex : ℤ)
    (catalogue : List CatRow) :
    ∀ out ∈ get_predicted_line_list_with_guess px py midSlitIndex catalogue,
      ∃ fr ∈ dispersion_map_to_pixel_arrays px py catalogue,
        ∃ mfr ∈ dispersion_map_to_pixel_arrays px py catalogue,
          mfr.row.slit_index = midSlitIndex ∧
          mfr.row.wavelength = fr.row.wavelength ∧
          mfr.row.order = fr.row.order ∧
          out = CatRow.mk fr.row.order fr.row.wavelength fr.row.slit_index
            fr.row.slit_position
            (fr.row.detector_x - (mfr.row.detector_x - mfr.fit_x))
            (fr.row.detector_y - (mfr.row.detector_y - mfr.fit_y)) := by
  intro out hout
  unfold get_predicted_line_list_with_guess mergeApplyShifts at hout
  rcases List.mem_flatMap.mp hout with ⟨fr, hfr, hmap⟩
  rcases List.mem_map.mp hmap with ⟨s, hs, hsEq⟩
  have hsKey := List.of_mem_filter hs
  have hsMem := List.mem_of_mem_filter hs
  simp only [Bool.and_eq_true, decide_eq_true_eq] at hsKey
  unfold shiftTable at hsMem
  rcases List.mem_map.mp hsMem with ⟨mfr, hmfr, hmEq⟩
  have hmMid := List.of_mem_filter hmfr
  have hmMem := List.mem_of_mem_filter hmfr
  simp only [decide_eq_true_eq] at hmMid
  refine ⟨fr, hfr, mfr, hmMem, hmMid, ?_, ?_, ?_⟩
  · have : s.wavelength = mfr.row.wavelength := by rw [← hmEq]
    rw [← this, hsKey.1]
  · have : s.order = mfr.row.order := by rw [← hmEq]
    rw [← this, hsKey.2]
  · rw [← hsEq, ← hmEq]

unseal Rat.add Rat.mul Rat.inv Rat.sub in
/-- Witness for `shift_estimator_amended`: the single-row scenario of the
counterexample, applied to the returned row `(8, 8)`. -/
theorem shift_estimator_amended_witness :
    ∃ fr ∈ dispersion_map_to_pixel_arrays (fun _ : CatRow => (8 : ℚ))
        (fun _ : CatRow => (8 : ℚ)) [CatRow.mk 1 100 5 0 10 10],
      ∃ mfr ∈ dispersion_map_to_pixel_arrays (fun _ : CatRow => (8 : ℚ))
          (fun _ : CatRow => (8 : ℚ)) [CatRow.mk 1 100 5 0 10 10],
        mfr.row.slit_index = 5 ∧
        mfr.row.wavelength = fr.row.wavelength ∧
        mfr.row.order = fr.row.order ∧
        CatRow.mk 1 100 5 0 8 8 = CatRow.mk fr.row.order fr.row.wavelength
          fr.row.slit_index fr.row.slit_position
          (fr.row.detector_x - (mfr.row.detector_x - mfr.fit_x))
          (fr.row.detector_y - (mfr.row.detector_y - mfr.fit_y)) :=
  shift_estimator_amended (fun _ => 8) (fun _ => 8) 5
    [CatRow.mk 1 100 5 0 10 10] (CatRow.mk 1 100 5 0 8 8) (by decide)

/-- An observed-line row of the fitter's table (`fit_polynomials`):
spectral coordinates and the observed centroid. -/
structure ObsRow where
  order : ℚ
  wavelength : ℚ
  slit_position : ℚ
  observed_x : ℚ
  observed_y : ℚ
deriving DecidableEq, Repr

/-- The external pieces `fit_polynomials` builds on: `lsq` is scipy's
`curve_fit` least-squares fit on the current table, returning the fitted
x- and y-polynomials as evaluation functions; `sqrtFn` the floating square
root; `madScale` astropy's `mad_std` factor (`1/Phi^{-1}(3/4) ≈ 1.4826`);
`sigma` the configured `poly-fitting-residual-clipping-sigma`. -/
structure FitterEnv where
  lsq : List ObsRow → (ObsRow → ℚ) × (ObsRow → ℚ)
  sqrtFn : ℚ → ℚ
  madScale : ℚ
  sigma : ℚ

/-- `np.median`: the middle element of the sorted values, or the mean of
the two middle elements when the length is even. -/
def medianQ (l : List ℚ) : ℚ :=
  let s := sortRows (fun a b => decide (a ≤ b)) l
  if s.length % 2 = 1 then s.getD (s.length / 2) 0
  else (s.getD (s.length / 2 - 1) 0 + s.getD (s.length / 2) 0) / 2

/-- astropy `mad_std`: the median absolute deviation from the median,
scaled by `madScale`. -/
def madStd (madScale : ℚ) (l : List ℚ) : ℚ :=
  madScale * medianQ (l.map (fun v => |v - medianQ l|))

/-- `calculate_residuals` (lines 553-564): the combined residual
`residuals_xy = sqrt((fit_x - observed_x)^2 + (fit_y - observed_y)^2)`. -/
def residual_xy (sqrtFn : ℚ → ℚ) (fx fy : ObsRow → ℚ) (r : ObsRow) : ℚ :=
  sqrtFn ((fx r - r.observed_x) ^ 2 + (fy r - r.observed_y) ^ 2)

/-- Lower bound of astropy's
`sigma_clip(..., sigma_lower=sigma, cenfunc='median', stdfunc='mad_std')`. -/
def clipBandLow (env : FitterEnv) (res : List ℚ) : ℚ :=
  medianQ res - env.sigma * madStd env.madScale res

/-- Upper bound of the same `sigma_clip` call. -/
def clipBandHigh (env : FitterEnv) (res : List ℚ) : ℚ :=
  medianQ res + env.sigma * madStd env.madScale res

/-- The astropy mask (one pass, `maxiters=1`): a value is clipped iff it
lies strictly outside `[median - sigma*mad_std, median + sigma*mad_std]`. -/
def clipMasked (env : FitterEnv) (res : List ℚ) (v : ℚ) : Bool :=
  decide (v < clipBandLow env res) || decide (clipBandHigh env res < v)

/-- One iteration of the `fit_polynomials` while-loop (lines 724-774):
least-squares fit of both polynomials on the current table, per-row
combined residuals, one `sigma_clip` pass on `residuals_xy`, the clipped
count from `value_counts` (number of `True` in the mask), and the drop of
the masked rows. -/
def clipStep (env : FitterEnv) (rows : List ObsRow) : List ObsRow × ℕ :=
  let f := env.lsq rows
  let res := rows.map (residual_xy env.sqrtFn f.1 f.2)
  let maskFn := fun r => clipMasked env res (residual_xy env.sqrtFn f.1 f.2 r)
  (rows.filter (fun r => !(maskFn r)), (rows.map maskFn).count true)

/-- The while-loop
`while clippedCount > 0 and iteration < clippingIterationLimit` (line 724),
with the remaining iteration budget as fuel; returns the surviving table
and the number of iterations executed. -/
def fitClipLoop (env : FitterEnv) : ℕ → List ObsRow → List ObsRow × ℕ
  | 0, rows => (rows, 0)
  | fuel + 1, rows =>
    let rc := clipStep env rows
    if rc.2 = 0 then (rc.1, 1)
    else
      let rest := fitClipLoop env fuel rc.1
      (rest.1, rest.2 + 1)

/-- The table after `n` clip iterations. -/
def stepN (env : FitterEnv) : ℕ → List ObsRow → List ObsRow
  | 0, rows => rows
  | n + 1, rows => stepN env n (clipStep env rows).1

/-- Number of rows clipped by (0-based) iteration `j`. -/
def clippedCountAt (env : FitterEnv) (j : ℕ) (rows : List ObsRow) : ℕ :=
  (clipStep env (stepN env j rows)).2

/-- `pandas.Series.min` over a non-empty list (0 for the empty one). -/
def listMin : List ℚ → ℚ
  | [] => 0
  | a :: as => as.foldl min a

/-- `pandas.Series.max` over a non-empty list (0 for the empty one). -/
def listMax : List ℚ → ℚ
  | [] => 0
  | a :: as => as.foldl max a

/-- `pandas.Series.mean`. -/
def listMean (l : List ℚ) : ℚ := l.sum / (l.length : ℚ)

/-- `pandas.Series.std` (sample standard deviation, `ddof=1`), via the
floating square root. -/
def sampleStd (sqrtFn : ℚ → ℚ) (l : List ℚ) : ℚ :=
  sqrtFn ((l.map (fun v => (v - listMean l) ^ 2)).sum / ((l.length : ℚ) - 1))

/-- The aggregate residual QC written by
`calculate_residuals(..., writeQCs=True)` (lines 569-661), in source
order: per-axis min/max/std of the absolute residuals, then min/max/std
of the combined residual. -/
def qcRecords (env : FitterEnv) (fx fy : ObsRow → ℚ) (rows : List ObsRow) :
    List (String × ℚ) :=
  [("XRESMIN", listMin (rows.map (fun r => |fx r - r.observed_x|))),
   ("XRESMAX", listMax (rows.map (fun r => |fx r - r.observed_x|))),
   ("XRESRMS", sampleStd env.sqrtFn (rows.map (fun r => |fx r - r.observed_x|))),
   ("YRESMIN", listMin (rows.map (fun r => |fy r - r.observed_y|))),
   ("YRESMAX", listMax (rows.map (fun r => |fy r - r.observed_y|))),
   ("YRESRMS", sampleStd env.sqrtFn (rows.map (fun r => |fy r - r.observed_y|))),
   ("XYRESMIN", listMin (rows.map (residual_xy env.sqrtFn fx fy))),
   ("XYRESMAX", listMax (rows.map (residual_xy env.sqrtFn fx fy))),
   ("XYRESRMS", sampleStd env.sqrtFn (rows.map (residual_xy env.sqrtFn fx fy)))]

/-- `fit_polynomials` (lines 666-783): run the clipping loop, then compute
the aggregate QC on the final surviving table using the coefficients
fitted in the last executed iteration (the fit of the table *before* the
final drop, i.e. `env.lsq (stepN env (n-1) rows)`).  With an iteration
limit of 0 no fit exists (`xcoeff` would be unbound in Python): `none`. -/
def fit_polynomials_model (env : FitterEnv) (limit : ℕ)
    (rows : List ObsRow) : List ObsRow × ℕ × Option (List (String × ℚ)) :=
  let res := fitClipLoop env limit rows
  if res.2 = 0 then (res.1, res.2, none)
  else
    (res.1, res.2,
      some (qcRecords env (env.lsq (stepN env (res.2 - 1) rows)).1
        (env.lsq (stepN env (res.2 - 1) rows)).2 res.1))

lemma clipStep_band (env : FitterEnv) (rs : List ObsRow) :
    (clipStep env rs).1 = rs.filter (fun r =>
      decide (clipBandLow env
          (rs.map (residual_xy env.sqrtFn (env.lsq rs).1 (env.lsq rs).2)) ≤
        residual_xy env.sqrtFn (env.lsq rs).1 (env.lsq rs).2 r) &&
      decide (residual_xy env.sqrtFn (env.lsq rs).1 (env.lsq rs).2 r ≤
        clipBandHigh env
          (rs.map (residual_xy env.sqrtFn (env.lsq rs).1 (env.lsq rs).2)))) ∧
    (clipStep env rs).2 = (rs.filter (fun r =>
      clipMasked env
        (rs.map (residual_xy env.sqrtFn (env.lsq rs).1 (env.lsq rs).2))
        (residual_xy env.sqrtFn (env.lsq rs).1 (env.lsq rs).2 r))).length := by
  constructor
  · show rs.filter _ = rs.filter _
    apply List.filter_congr
    intro r _
    simp only [clipMasked, Bool.not_or, ← decide_not, not_lt,
      Bool.and_comm]
  · show (rs.map _).count true = _
    rw [List.count_eq_countP, List.countP_map,
      List.countP_eq_length_filter]
    simp [Function.comp_def]

lemma fitClipLoop_spec (env : FitterEnv) :
    ∀ (limit : ℕ) (rows : List ObsRow),
      (fitClipLoop env limit rows).1 =
        stepN env (fitClipLoop env limit rows).2 rows ∧
      (fitClipLoop env limit rows).2 ≤ limit ∧
      ((fitClipLoop env limit rows).2 = limit ∨
        (0 < (fitClipLoop env limit rows).2 ∧
          clippedCountAt env ((fitClipLoop env limit rows).2 - 1) rows = 0)) ∧
      (∀ j, j + 1 < (fitClipLoop env limit rows).2 →
        clippedCountAt env j rows ≠ 0) ∧
      (0 < limit → 0 < (fitClipLoop env limit rows).2) := by
  intro limit
  induction limit with
  | zero =>
    intro rows
    refine ⟨rfl, Nat.le_refl 0, Or.inl rfl, ?_, ?_⟩
    · intro j hj
      simp only [fitClipLoop] at hj
      omega
    · intro h
      exact absurd h (by omega)
  | succ f ih =>
    intro rows
    simp only [fitClipLoop]
    by_cases h0 : (clipStep env rows).2 = 0
    · rw [if_pos h0]
      refine ⟨rfl, by omega, Or.inr ⟨by omega, h0⟩,
        fun j hj => absurd hj (by omega), fun _ => by omega⟩
    · rw [if_neg h0]
      have hI := ih (clipStep env rows).1
      refine ⟨hI.1, by have := hI.2.1; omega, ?_, ?_, fun _ => by omega⟩
      · rcases hI.2.2.1 with h | ⟨hpos, hclip⟩
        · exact Or.inl (by omega)
        · refine Or.inr ⟨by omega, ?_⟩
          have hshift : (fitClipLoop env f (clipStep env rows).1).2 - 1 + 1 =
              (fitClipLoop env f (clipStep env rows).1).2 :=
            Nat.succ_pred_eq_of_pos hpos
          have : clippedCountAt env
              ((fitClipLoop env f (clipStep env rows).1).2 - 1 + 1) rows =
              clippedCountAt env
              ((fitClipLoop env f (clipStep env rows).1).2 - 1)
              (clipStep env rows).1 := rfl
          rw [Nat.add_sub_cancel, ← hshift, this]
          exact hclip
      · intro j hj
        cases j with
        | zero => exact h0
        | succ j' =>
          have : clippedCountAt env (j' + 1) rows =
              clippedCountAt env j' (clipStep env rows).1 := rfl
          rw [this]
          exact hI.2.2.2.1 j' (by omega)

/-- C2: the robust global fitter iterates the block
{least-squares fit of the x- and y-polynomials on the current table,
per-row combined residuals, one sigma-clip pass of `residuals_xy` with the
median as centre and `mad_std` (MAD scaled by astropy's `1.4826...`
factor) at the configured sigma, drop of the clipped rows}; it executes
`n` iterations with `n ≤ limit`, where every iteration before the last
clipped at least one row and the last either clipped zero rows or hit the
iteration limit; each step retains exactly the rows whose residual lies in
`[median - sigma*mad_std, median + sigma*mad_std]`; and after the final
iteration the aggregate residual QC statistics are computed on the
surviving table with the last iteration's fit. -/
theorem fit_polynomials_loop_spec (env : FitterEnv) (limit : ℕ)
    (rows : List ObsRow) (hlimit : 0 < limit) :
    (∀ rs : List ObsRow,
      (clipStep env rs).1 = rs.filter (fun r =>
        decide (clipBandLow env
            (rs.map (residual_xy env.sqrtFn (env.lsq rs).1 (env.lsq rs).2)) ≤
          residual_xy env.sqrtFn (env.lsq rs).1 (env.lsq rs).2 r) &&
        decide (residual_xy env.sqrtFn (env.lsq rs).1 (env.lsq rs).2 r ≤
          clipBandHigh env
            (rs.map (residual_xy env.sqrtFn (env.lsq rs).1 (env.lsq rs).2))))) ∧
    (∃ n : ℕ, 0 < n ∧ n ≤ limit ∧
      fitClipLoop env limit rows = (stepN env n rows, n) ∧
      (n = limit ∨ clippedCountAt env (n - 1) rows = 0) ∧
      (∀ j, j + 1 < n → clippedCountAt env j rows ≠ 0) ∧
      fit_polynomials_model env limit rows = (stepN env n rows, n,
        some (qcRecords env (env.lsq (stepN env (n - 1) rows)).1
          (env.lsq (stepN env (n - 1) rows)).2 (stepN env n rows)))) := by
  refine ⟨fun rs => (clipStep_band env rs).1, ?_⟩
  have h := fitClipLoop_spec env limit rows
  refine ⟨(fitClipLoop env limit rows).2, h.2.2.2.2 hlimit, h.2.1, ?_, ?_,
    h.2.2.2.1, ?_⟩
  · rw [← h.1]
  · rcases h.2.2.1 with h' | h'
    · exact Or.inl h'
    · exact Or.inr h'.2
  · have hn : (fitClipLoop env limit rows).2 ≠ 0 :=
      Nat.pos_iff_ne_zero.mp (h.2.2.2.2 hlimit)
    unfold fit_polynomials_model
    rw [if_neg hn, h.1]

unseal Rat.add Rat.mul Rat.inv Rat.sub Rat.ofScientific in
/-- Witness for `fit_polynomials_loop_spec`: a perfect fitter (residuals
all zero) on a two-row table clips nothing, so the loop stops after one
iteration of the five allowed. -/
theorem fit_polynomials_loop_spec_witness :
    (∀ rs : List ObsRow,
      (clipStep (FitterEnv.mk
          (fun _ => (fun r => r.observed_x, fun r => r.observed_y))
          (fun q => q) 1.4826 3) rs).1 = rs.filter (fun r =>
        decide (clipBandLow (FitterEnv.mk
            (fun _ => (fun r => r.observed_x, fun r => r.observed_y))
            (fun q => q) 1.4826 3)
            (rs.map (residual_xy (fun q => q)
              ((FitterEnv.mk
                (fun _ => (fun r => r.observed_x, fun r => r.observed_y))
                (fun q => q) 1.4826 3).lsq rs).1
              ((FitterEnv.mk
                (fun _ => (fun r => r.observed_x, fun r => r.observed_y))
                (fun q => q) 1.4826 3).lsq rs).2)) ≤
          residual_xy (fun q => q)
            ((FitterEnv.mk
              (fun _ => (fun r => r.observed_x, fun r => r.observed_y))
              (fun q => q) 1.4826 3).lsq rs).1
            ((FitterEnv.mk
              (fun _ => (fun r => r.observed_x, fun r => r.observed_y))
              (fun q => q) 1.4826 3).lsq rs).2 r) &&
        decide (residual_xy (fun q => q)
            ((FitterEnv.mk
              (fun _ => (fun r => r.observed_x, fun r => r.observed_y))
              (fun q => q) 1.4826 3).lsq rs).1
            ((FitterEnv.mk
              (fun _ => (fun r => r.observed_x, fun r => r.observed_y))
              (fun q => q) 1.4826 3).lsq rs).2 r ≤
          clipBandHigh (FitterEnv.mk
            (fun _ => (fun r => r.observed_x, fun r => r.observed_y))
            (fun q => q) 1.4826 3)
            (rs.map (residual_xy (fun q => q)
              ((FitterEnv.mk
                (fun _ => (fun r => r.observed_x, fun r => r.observed_y))
                (fun q => q) 1.4826 3).lsq rs).1
              ((FitterEnv.mk
                (fun _ => (fun r => r.observed_x, fun r => r.observed_y))
                (fun q => q) 1.4826 3).lsq rs).2))))) ∧
    (∃ n : ℕ, 0 < n ∧ n ≤ 5 ∧
      fitClipLoop (FitterEnv.mk
          (fun _ => (fun r => r.observed_x, fun r => r.observed_y))
          (fun q => q) 1.4826 3) 5
          [ObsRow.mk 1 100 0 10 20, ObsRow.mk 1 101 0 11 21] =
        (stepN (FitterEnv.mk
          (fun _ => (fun r => r.observed_x, fun r => r.observed_y))
          (fun q => q) 1.4826 3) n
          [ObsRow.mk 1 100 0 10 20, ObsRow.mk 1 101 0 11 21], n) ∧
      (n = 5 ∨ clippedCountAt (FitterEnv.mk
          (fun _ => (fun r => r.observed_x, fun r => r.observed_y))
          (fun q => q) 1.4826 3) (n - 1)
          [ObsRow.mk 1 100 0 10 20, ObsRow.mk 1 101 0 11 21] = 0) ∧
      (∀ j, j + 1 < n → clippedCountAt (FitterEnv.mk
          (fun _ => (fun r => r.observed_x, fun r => r.observed_y))
          (fun q => q) 1.4826 3) j
          [ObsRow.mk 1 100 0 10 20, ObsRow.mk 1 101 0 11 21] ≠ 0) ∧
      fit_polynomials_model (FitterEnv.mk
          (fun _ => (fun r => r.observed_x, fun r => r.observed_y))
          (fun q => q) 1.4826 3) 5
          [ObsRow.mk 1 100 0 10 20, ObsRow.mk 1 101 0 11 21] =
        (stepN (FitterEnv.mk
          (fun _ => (fun r => r.observed_x, fun r => r.observed_y))
          (fun q => q) 1.4826 3) n
          [ObsRow.mk 1 100 0 10 20, ObsRow.mk 1 101 0 11 21], n,
        some (qcRecords (FitterEnv.mk
            (fun _ => (fun r => r.observed_x, fun r => r.observed_y))
            (fun q => q) 1.4826 3)
          ((FitterEnv.mk
            (fun _ => (fun r => r.observed_x, fun r => r.observed_y))
            (fun q => q) 1.4826 3).lsq (stepN (FitterEnv.mk
              (fun _ => (fun r => r.observed_x, fun r => r.observed_y))
              (fun q => q) 1.4826 3) (n - 1)
              [ObsRow.mk 1 100 0 10 20, ObsRow.mk 1 101 0 11 21])).1
          ((FitterEnv.mk
            (fun _ => (fun r => r.observed_x, fun r => r.observed_y))
            (fun q => q) 1.4826 3).lsq (stepN (FitterEnv.mk
              (fun _ => (fun r => r.observed_x, fun r => r.observed_y))
              (fun q => q) 1.4826 3) (n - 1)
              [ObsRow.mk 1 100 0 10 20, ObsRow.mk 1 101 0 11 21])).2
          (stepN (FitterEnv.mk
            (fun _ => (fun r => r.observed_x, fun r => r.observed_y))
            (fun q => q) 1.4826 3) n
            [ObsRow.mk 1 100 0 10 20, ObsRow.mk 1 101 0 11 21])))) :=
  fit_polynomials_loop_spec
    (FitterEnv.mk (fun _ => (fun r => r.observed_x, fun r => r.observed_y))
      (fun q => q) 1.4826 3) 5
    [ObsRow.mk 1 100 0 10 20, ObsRow.mk 1 101 0 11 21] (by decide)

/-- IEEE addition restricted to the values appearing here: adding NaN
(`none`) to anything is NaN; finite values add. Used for both
`Combiner.sum_combine` and the `+=` of the placeholder (lines 1059-1065). -/
def addOpt : Option ℚ → Option ℚ → Option ℚ
  | some a, some b => some (a + b)
  | _, _ => none

/-- `Combiner(...).sum_combine()` (lines 1059-1062): pixelwise sum of the
per-order images. -/
def sumImages (imgs : List Image) (p : ℤ × ℤ) : Option ℚ :=
  (imgs.map (fun m => m p)).foldl addOpt (some 0)

/-- The default placeholder of `create_placeholder_images` for one order
(lines 920-968, `reverse=False`): NaN (`none`) inside the order's trace
region, 0 outside. -/
def placeholder_inside (region : ℤ × ℤ → Bool) : Image :=
  fun p => if region p then none else some 0

/-- The painting loop of `create_placeholder_images(reverse=True)` (lines
926-960): start from an all-NaN frame and paint `f o` over the trace
region of each order `o`. With `f = fun _ => 0` this is the reverse
wavelength/slit placeholder; with `f = id` it is the ORDER image. -/
def paint (region : ℚ → ℤ × ℤ → Bool) (f : ℚ → ℚ) (orders : List ℚ) :
    Image :=
  orders.foldl (fun img o => fun p => if region o p then some (f o) else img p)
    (fun _ => none)

/-- The reverse placeholder added to both combined images (lines
1057-1065): 0 inside any order, NaN outside. -/
def reverse_wl_placeholder (orders : List ℚ)
    (region : ℚ → ℤ × ℤ → Bool) : Image :=
  paint region (fun _ => 0) orders

/-- The ORDER extension written by `map_to_image` (lines 1085-1086): the
order number inside each order's trace, NaN outside. -/
def order_map_image (orders : List ℚ) (region : ℚ → ℤ × ℤ → Bool) : Image :=
  paint region (fun o => o) orders

/-- The WAVELENGTH extension of the raster-map file (lines 1059-1082):
sum of the per-order wavelength images plus the reverse placeholder. -/
def map_to_image_wavelength (wlImages : List Image) (orders : List ℚ)
    (region : ℚ → ℤ × ℤ → Bool) : Image :=
  fun p => addOpt (sumImages wlImages p) (reverse_wl_placeholder orders region p)

/-- The SLIT extension (lines 1059-1084; note line 1065 adds the same
`wlMap.data` reverse placeholder to the slit image). -/
def map_to_image_slit (slitImages : List Image) (orders : List ℚ)
    (region : ℚ → ℤ × ℤ → Bool) : Image :=
  fun p => addOpt (sumImages slitImages p) (reverse_wl_placeholder orders region p)

/-- C3 counterexample: a single order whose trace region is the single
pixel `(0, 0)`, whose rasterisation committed nothing (the per-order
images are still the untouched placeholders, as happens when no grid
sample passes the displacement threshold within the iteration limit).
In the written file the WAVELENGTH value at `(0, 0)` is NaN while the
ORDER value is 1: the claimed three-way NaN equivalence fails. -/
theorem nan_symmetry_counterexample :
    map_to_image_wavelength [placeholder_inside (fun p => decide (p = (0, 0)))]
      [1] (fun _ p => decide (p = (0, 0))) (0, 0) = none ∧
    map_to_image_slit [placeholder_inside (fun p => decide (p = (0, 0)))]
      [1] (fun _ p => decide (p = (0, 0))) (0, 0) = none ∧
    order_map_image [1] (fun _ p => decide (p = (0, 0))) (0, 0) = some 1 ∧
    ¬ ((map_to_image_wavelength
          [placeholder_inside (fun p => decide (p = (0, 0)))]
          [1] (fun _ p => decide (p = (0, 0))) (0, 0) = none) ↔
        (order_map_image [1] (fun _ p => decide (p = (0, 0))) (0, 0) =
          none)) := by
  refine ⟨rfl, rfl, rfl, ?_⟩
  intro h
  have := h.mp rfl
  exact absurd this (by decide)

lemma addOpt_eq_none {a b : Option ℚ} :
    addOpt a b = none ↔ a = none ∨ b = none := by
  cases a <;> cases b <;> simp [addOpt]

lemma foldl_addOpt_none_iff {l1 l2 : List (Option ℚ)}
    (h : List.Forall₂ (fun a b : Option ℚ => a = none ↔ b = none) l1 l2) :
    ∀ {a1 a2 : Option ℚ}, (a1 = none ↔ a2 = none) →
      (l1.foldl addOpt a1 = none ↔ l2.foldl addOpt a2 = none) := by
  induction h with
  | nil => intro a1 a2 ha; exact ha
  | cons hab htl ih =>
    intro a1 a2 ha
    simp only [List.foldl_cons]
    apply ih
    rw [addOpt_eq_none, addOpt_eq_none, ha, hab]

lemma paint_none_iff (region : ℚ → ℤ × ℤ → Bool) (f : ℚ → ℚ)
    (orders : List ℚ) (p : ℤ × ℤ) :
    paint region f orders p = none ↔ ∀ o ∈ orders, region o p = false := by
  unfold paint
  have haux : ∀ (os : List ℚ) (acc : Image),
      (os.foldl (fun img o => fun q =>
        if region o q then some (f o) else img q) acc) p = none ↔
      (acc p = none ∧ ∀ o ∈ os, region o p = false) := by
    intro os
    induction os with
    | nil => intro acc; simp
    | cons o os' ih =>
      intro acc
      rw [List.foldl_cons, ih]
      constructor
      · intro ⟨h1, h2⟩
        by_cases hro : region o p
        · rw [if_pos hro] at h1; exact absurd h1 (by simp)
        · rw [if_neg hro] at h1
          exact ⟨h1, fun o' ho' => by
            rcases List.mem_cons.mp ho' with h | h
            · rw [h]; exact Bool.eq_false_iff.mpr hro
            · exact h2 o' h⟩
      · intro ⟨h1, h2⟩
        have hro : region o p = false := h2 o (List.mem_cons_self o os')
        refine ⟨?_, fun o' ho' => h2 o' (List.mem_cons_of_mem o ho')⟩
        rw [if_neg (by rw [hro]; exact Bool.false_ne_true)]
        exact h1
  refine (haux orders (fun _ => none)).trans ?_
  simp

/-- C3 amended: for per-order image pairs whose wavelength and slit
components agree on NaN support pixel-for-pixel (which the commit loop
preserves), the written WAVELENGTH and SLIT extensions are NaN at exactly
the same pixels; and a NaN ORDER pixel forces a NaN WAVELENGTH pixel.
The converse fails: an in-order pixel the rasteriser never constrained is
NaN in WAVELENGTH and SLIT but carries its order number in ORDER. -/
theorem nan_symmetry_amended (wlImages slitImages : List Image)
    (orders : List ℚ) (region : ℚ → ℤ × ℤ → Bool) (p : ℤ × ℤ)
    (hsync : List.Forall₂
      (fun w s : Image => ∀ q, w q = none ↔ s q = none)
      wlImages slitImages) :
    (map_to_image_wavelength wlImages orders region p = none ↔
      map_to_image_slit slitImages orders region p = none) ∧
    (order_map_image orders region p = none →
      map_to_image_wavelength wlImages orders region p = none) := by
  constructor
  · unfold map_to_image_wavelength map_to_image_slit
    rw [addOpt_eq_none, addOpt_eq_none]
    have hsum : sumImages wlImages p = none ↔ sumImages slitImages p = none := by
      unfold sumImages
      apply foldl_addOpt_none_iff
      · induction hsync with
        | nil => exact List.Forall₂.nil
        | cons hab htl ih => exact List.Forall₂.cons (hab p) ih
      · exact Iff.rfl
    rw [hsum]
  · intro hord
    unfold map_to_image_wavelength
    rw [addOpt_eq_none]
    right
    unfold reverse_wl_placeholder
    rw [paint_none_iff]
    unfold order_map_image at hord
    rw [paint_none_iff] at hord
    exact hord

/-- Witness for `nan_symmetry_amended`: the single-order scenario of the
counterexample, whose wavelength and slit per-order images are identical
(hence NaN-synchronised). -/
theorem nan_symmetry_amended_witness :
    (map_to_image_wavelength [placeholder_inside (fun p => decide (p = (0, 0)))]
        [1] (fun _ p => decide (p = (0, 0))) (0, 0) = none ↔
      map_to_image_slit [placeholder_inside (fun p => decide (p = (0, 0)))]
        [1] (fun _ p => decide (p = (0, 0))) (0, 0) = none) ∧
    (order_map_image [1] (fun _ p => decide (p = (0, 0))) (0, 0) = none →
      map_to_image_wavelength
        [placeholder_inside (fun p => decide (p = (0, 0)))]
        [1] (fun _ p => decide (p = (0, 0))) (0, 0) = none) :=
  nan_symmetry_amended [placeholder_inside (fun p => decide (p = (0, 0)))]
    [placeholder_inside (fun p => decide (p = (0, 0)))]
    [1] (fun _ p => decide (p = (0, 0))) (0, 0)
    (List.Forall₂.cons (fun _ => Iff.rfl) List.Forall₂.nil)

end SoxsDisp
